import Mathlib

/-!
Verification of the Spanish bank phone extractor.

This file gives a shallow embedding of the core extraction logic of the
repository (`spanish_bank_extractor/core/extractor.py` and
`spanish_bank_extractor/core/bank_registry.py`) and proves properties of it.

Strings are modelled at the level of Unicode code points (`Char`), matching
Python's `str` indexing and slicing.  The character classes `\d`, `\s`, `\w`
of Python's `re` module are modelled over their ASCII portions, which covers
every character the patterns and the reference data can produce.

The regular-expression patterns compiled in `_compile_phone_patterns` and the
IBAN pattern of `extract_phone_numbers` are embedded as explicit scanners.
Each pattern is a chain of literal characters, character classes, counted
repetitions `\d{n}`, greedy whitespace (`\s*`, `\s?`) and word boundaries
(`\b`).  Since `\s` and `\d` match disjoint character sets, the greedy
whitespace loops never have to backtrack, so each pattern is a deterministic
scanner except for the single `\d{2,3}` choice point in the grouped `+34`
pattern, which is embedded as "try 3 digits first, then 2" exactly as a
backtracking engine resolves it.  `re.findall` is embedded as a left-to-right
scan that emits the match found at the leftmost position and resumes at the
end of each match.
-/

/-- Python `str.strip` / `re` whitespace class `\s` (ASCII portion). -/
def isPySpace (c : Char) : Bool :=
  c = ' ' || c = '\t' || c = '\n' || c = '\r' || c = '\x0b' || c = '\x0c'

/-- Python `re` word class `\w` (ASCII portion), used for `\b` boundaries. -/
def isWordChar (c : Char) : Bool :=
  c.isAlpha || c.isDigit || c = '_'

/-- A `\b` before a word character holds iff the preceding character (if any)
is not a word character. -/
def atBoundary (prev : Option Char) : Bool :=
  match prev with
  | none => true
  | some c => !isWordChar c

/-- A `\b` after a word character holds iff the following character (if any)
is not a word character. -/
def endBoundary (l : List Char) : Bool :=
  match l with
  | [] => true
  | c :: _ => !isWordChar c

/-- Python `str.strip` on a list of code points. -/
def pyStripL (l : List Char) : List Char :=
  ((l.dropWhile isPySpace).reverse.dropWhile isPySpace).reverse

/-- Python `str.strip`. -/
def pyStrip (s : String) : String :=
  ⟨pyStripL s.data⟩

/-- Python `str.lower` (ASCII portion). -/
def strLower (s : String) : String :=
  ⟨s.data.map Char.toLower⟩

/-- Consume exactly `n` characters, each satisfying `p`; return the rest. -/
def eatChars (p : Char → Bool) : Nat → List Char → Option (List Char)
  | 0, l => some l
  | _ + 1, [] => none
  | n + 1, c :: cs => if p c then eatChars p n cs else none

/-- Counted digit repetition `\d{n}`. -/
def eatDigits (n : Nat) (l : List Char) : Option (List Char) :=
  eatChars Char.isDigit n l

/-- Greedy `\s*`. -/
def eatSpaces (l : List Char) : List Char :=
  l.dropWhile isPySpace

/-- Greedy `\s?`. -/
def eatSpaceOpt (l : List Char) : List Char :=
  match l with
  | [] => []
  | c :: cs => if isPySpace c then cs else c :: cs

/-- The IBAN pattern `ES\d{2}\s?\d{4}\s?\d{4}\s?\d{4}\s?\d{4}\s?\d{4}`
compiled with `re.IGNORECASE` in `extract_phone_numbers`. -/
def matchIban (_prev : Option Char) (l : List Char) : Option (List Char) := do
  let l ← eatChars (fun c => c = 'E' || c = 'e') 1 l
  let l ← eatChars (fun c => c = 'S' || c = 's') 1 l
  let l ← eatDigits 2 l
  let l ← eatDigits 4 (eatSpaceOpt l)
  let l ← eatDigits 4 (eatSpaceOpt l)
  let l ← eatDigits 4 (eatSpaceOpt l)
  let l ← eatDigits 4 (eatSpaceOpt l)
  eatDigits 4 (eatSpaceOpt l)

/-- Pattern 1 of `_compile_phone_patterns`: `\+34\s*\d{9}`. -/
def matchPlain34 (_prev : Option Char) (l : List Char) : Option (List Char) := do
  let l ← eatChars (fun c => c = '+') 1 l
  let l ← eatChars (fun c => c = '3') 1 l
  let l ← eatChars (fun c => c = '4') 1 l
  eatDigits 9 (eatSpaces l)

/-- The deterministic tail `\s*\d{3}\s*\d{2}\s*\d{2}` shared by the grouped
patterns. -/
def groupTail (l : List Char) : Option (List Char) := do
  let l ← eatDigits 3 (eatSpaces l)
  let l ← eatDigits 2 (eatSpaces l)
  eatDigits 2 (eatSpaces l)

/-- Pattern 2: `\+34\s*\d{2,3}\s*\d{3}\s*\d{2}\s*\d{2}`.  The greedy
`\d{2,3}` tries three digits first, then two. -/
def matchGrouped34 (_prev : Option Char) (l : List Char) : Option (List Char) := do
  let l ← eatChars (fun c => c = '+') 1 l
  let l ← eatChars (fun c => c = '3') 1 l
  let l ← eatChars (fun c => c = '4') 1 l
  let l := eatSpaces l
  (eatDigits 3 l >>= groupTail) <|> (eatDigits 2 l >>= groupTail)

/-- Pattern 3: `\b[6-8]\d{8}\b`. -/
def matchMobile (prev : Option Char) (l : List Char) : Option (List Char) :=
  if atBoundary prev then do
    let l ← eatChars (fun c => c = '6' || c = '7' || c = '8') 1 l
    let l ← eatDigits 8 l
    if endBoundary l then some l else none
  else none

/-- Pattern 4: `\b[6-8]\d{2}\s*\d{3}\s*\d{2}\s*\d{2}\b`. -/
def matchMobileGrouped (prev : Option Char) (l : List Char) : Option (List Char) :=
  if atBoundary prev then do
    let l ← eatChars (fun c => c = '6' || c = '7' || c = '8') 1 l
    let l ← eatDigits 2 l
    let l ← groupTail l
    if endBoundary l then some l else none
  else none

/-- Pattern 5: `\b8\d{8}\b`. -/
def matchLandline (prev : Option Char) (l : List Char) : Option (List Char) :=
  if atBoundary prev then do
    let l ← eatChars (fun c => c = '8') 1 l
    let l ← eatDigits 8 l
    if endBoundary l then some l else none
  else none

/-- Pattern 6: `\b8\d{2}\s*\d{3}\s*\d{2}\s*\d{2}\b`. -/
def matchLandlineGrouped (prev : Option Char) (l : List Char) : Option (List Char) :=
  if atBoundary prev then do
    let l ← eatChars (fun c => c = '8') 1 l
    let l ← eatDigits 2 l
    let l ← groupTail l
    if endBoundary l then some l else none
  else none

/-- One step of `re.findall`: at each position try the pattern; on success
emit the matched span and resume after it (each pattern here consumes at
least one character), otherwise advance one character.  `fuel` bounds the
recursion by the length of the input. -/
def findAllFuel (m : Option Char → List Char → Option (List Char)) :
    Nat → Option Char → List Char → List (List Char)
  | 0, _, _ => []
  | _ + 1, _, [] => []
  | fuel + 1, prev, c :: cs =>
    match m prev (c :: cs) with
    | some rest =>
      if rest.length ≤ cs.length then
        (c :: cs).take (cs.length + 1 - rest.length) ::
          findAllFuel m fuel ((c :: cs).take (cs.length + 1 - rest.length)).getLast?
            ((c :: cs).drop (cs.length + 1 - rest.length))
      else findAllFuel m fuel (some c) cs
    | none => findAllFuel m fuel (some c) cs

/-- `re.findall` of a pattern over a list of code points. -/
def findAll (m : Option Char → List Char → Option (List Char))
    (prev : Option Char) (l : List Char) : List (List Char) :=
  findAllFuel m l.length prev l

/-- Python substring test `needle in hay` on lists of code points. -/
def isInfixOfL (needle : List Char) : List Char → Bool
  | [] => needle.isEmpty
  | c :: cs => needle.isPrefixOf (c :: cs) || isInfixOfL needle cs

/-- The compiled pattern list of `_compile_phone_patterns`, in order. -/
def phonePatterns : List (Option Char → List Char → Option (List Char)) :=
  [matchPlain34, matchGrouped34, matchMobile, matchMobileGrouped,
   matchLandline, matchLandlineGrouped]

/-- The concatenation of `pattern.findall(text)` over the pattern list, in
pattern order, before deduplication (`extract_phone_numbers` lines 88-91). -/
def rawPhoneMatches (text : String) : List String :=
  (phonePatterns.map fun m => (findAll m none text.data).map fun l => (⟨l⟩ : String)).flatten

/-- The duplicate-removal loop of `extract_phone_numbers` (lines 92-98):
keep a `seen` set, append each phone not yet seen. -/
def dedupFirstAux (seen : List String) : List String → List String
  | [] => []
  | x :: xs => if x ∈ seen then dedupFirstAux seen xs else x :: dedupFirstAux (x :: seen) xs

/-- Remove duplicates preserving first-occurrence order. -/
def dedupFirst (l : List String) : List String :=
  dedupFirstAux [] l

/-- A bank record as built by `BankRegistry._load_banks` (the fields used by
the extraction logic; the pass-through metadata fields are omitted). -/
structure BankInfo where
  name : String
  entity_code : String
  address : String
deriving DecidableEq, Repr

/-- The loaded registry: an insertion-ordered mapping from registry key
(`CÓDIGO EUROPEO`) to bank record, with unique keys. -/
abbrev Registry := List (String × BankInfo)

/-- One row of `_load_banks`: the entity code is the key with its first two
characters dropped when the key has at least six characters, else the key. -/
def load_bank_row (code name addr : String) : String × BankInfo :=
  (code, ⟨name, if 6 ≤ code.data.length then ⟨code.data.drop 2⟩ else code, addr⟩)

/-- `BankRegistry.get_bank_info`: exact-key lookup. -/
def get_bank_info (reg : Registry) (key : String) : Option BankInfo :=
  (reg.find? fun kb => kb.1 == key).map fun kb => kb.2

/-- `BankRegistry.get_entity_code`. -/
def get_entity_code (reg : Registry) (key : String) : Option String :=
  (get_bank_info reg key).map fun b => b.entity_code

/-- `BankRegistry.search_banks`: blank or short terms give no results; then
case-insensitive substring match against bank names in registry order,
breaking after the hundredth match. -/
def search_banks (reg : Registry) (search_term : String) : List (String × String) :=
  if pyStrip search_term = "" then []
  else
    let t := pyStrip (strLower search_term)
    if t.length < 2 then []
    else
      ((reg.filter fun kb => isInfixOfL t.data (strLower kb.2.name).data).map
        fun kb => (kb.1, kb.2.name)).take 100

/-- `SpanishBankExtractor.normalize_iban_prefix` (named without the final
source word here): strip spaces; an `ES`-prefixed string of length six whose
characters 2-5 are digits is returned unchanged; otherwise an `ES`-prefixed
string of length at least six yields `"ES"` plus its characters 4-7; anything
else is returned space-stripped. -/
def normalize_iban_code (p : String) : String :=
  let clean := p.data.filter fun c => c != ' '
  if clean.take 2 = ['E', 'S'] ∧ 2 < clean.length then
    if clean.length = 6 ∧ ((clean.drop 2).take 4).all Char.isDigit then ⟨clean⟩
    else if 6 ≤ clean.length then ⟨'E' :: 'S' :: (clean.drop 4).take 4⟩
    else ⟨clean⟩
  else ⟨clean⟩

/-- The IBAN candidates of a text unit: the IBAN pattern's matches over the
hyphen-stripped text (`extract_phone_numbers` lines 74-75). -/
def ibanCandidates (text : String) : List (List Char) :=
  findAll matchIban none (text.data.filter fun c => c != '-')

/-- The per-candidate check of `extract_phone_numbers` lines 77-83: remove
spaces, require length at least eight and a case-sensitive `ES` start, and
compare characters 4-7 with the target entity code. -/
def ibanMatchesEntity (entity_code : String) (iban : List Char) : Bool :=
  let clean := iban.filter fun c => c != ' '
  decide (8 ≤ clean.length) && decide (clean.take 2 = ['E', 'S']) &&
    decide ((clean.drop 4).take 4 = entity_code.data)

/-- `SpanishBankExtractor.extract_phone_numbers`. -/
def extract_phone_numbers (reg : Registry) (bank_id text : String) : List String :=
  match get_entity_code reg (normalize_iban_code bank_id) with
  | none => []
  | some ec =>
    if ec = "" then []
    else if (ibanCandidates text).any (ibanMatchesEntity ec) then
      dedupFirst (rawPhoneMatches text)
    else []

/-- The per-line result record of `process_text` / `_process_chunk`. -/
structure MatchLine where
  line_number : Nat
  text : String
  phone_numbers : List String
  phone_count : Nat
deriving DecidableEq, Repr

/-- Python `text.split('\n')` on a list of code points: the pieces between
newline characters (always at least one piece). -/
def splitLines : List Char → List (List Char)
  | [] => [[]]
  | c :: cs =>
    let r := splitLines cs
    if c = '\n' then [] :: r
    else
      match r with
      | p :: ps => (c :: p) :: ps
      | [] => [[c]]

/-- Python `text.split('\n')`. -/
def splitLinesStr (text : String) : List String :=
  (splitLines text.data).map fun l => (⟨l⟩ : String)

/-- Python text-mode file iteration over a file whose (newline-translated)
content is given: the lines of the content, a trailing newline producing no
extra empty line. -/
def iterLines : List Char → List (List Char)
  | [] => []
  | c :: cs =>
    let r := iterLines cs
    if c = '\n' then [] :: r
    else
      match r with
      | p :: ps => (c :: p) :: ps
      | [] => [[c]]

/-- The lines a Python file object yields for the given content, without
their terminators. -/
def fileLines (content : String) : List String :=
  (iterLines content.data).map fun l => (⟨l⟩ : String)

/-- The loop body shared by `process_text` and `_process_chunk`: strip the
line, skip it when blank, extract, and emit a record when at least one phone
matched; `k` is the 1-based number of the first line of the list. -/
def processLinesFrom (reg : Registry) (bank_id : String) : Nat → List String → List MatchLine
  | _, [] => []
  | k, line :: rest =>
    let t := pyStrip line
    if t = "" then processLinesFrom reg bank_id (k + 1) rest
    else
      let ps := extract_phone_numbers reg bank_id t
      if ps = [] then processLinesFrom reg bank_id (k + 1) rest
      else ⟨k, t, ps, ps.length⟩ :: processLinesFrom reg bank_id (k + 1) rest

/-- `SpanishBankExtractor.process_text`. -/
def process_text (reg : Registry) (bank_id text : String) : List MatchLine :=
  processLinesFrom reg bank_id 1 (splitLinesStr text)

/-- `SpanishBankExtractor._process_chunk`: the chunk already carries global
line numbers and pre-stripped text. -/
def process_chunk (reg : Registry) (bank_id : String)
    (chunk_lines : List (Nat × String)) : List MatchLine :=
  chunk_lines.filterMap fun nl =>
    if nl.2 = "" then none
    else
      let ps := extract_phone_numbers reg bank_id nl.2
      if ps = [] then none else some ⟨nl.1, nl.2, ps, ps.length⟩

/-- The read loop of `process_large_file`: pair each line with its 1-based
number and strip it as it is read. -/
def numberLines : Nat → List String → List (Nat × String)
  | _, [] => []
  | k, l :: ls => (k, pyStrip l) :: numberLines (k + 1) ls

/-- Batch a list into groups: a group is closed as soon as it holds `n`
elements, a final partial group remains (`fuel` bounds recursion by the list
length, each group removing at least one element). -/
def chunkListFuel : Nat → Nat → List α → List (List α)
  | 0, _, _ => []
  | _ + 1, _, [] => []
  | fuel + 1, n, x :: xs => (x :: xs.take (n - 1)) :: chunkListFuel fuel n (xs.drop (n - 1))

/-- The chunking of `process_large_file`'s accumulation loop. -/
def chunkList (n : Nat) (l : List α) : List (List α) :=
  chunkListFuel l.length n l

/-- `SpanishBankExtractor.process_large_file` (the returned results; the
pre-pass line count and the progress callback do not affect them). -/
def process_large_file (reg : Registry) (bank_id content : String)
    (chunk_size : Nat) : List MatchLine :=
  ((chunkList chunk_size (numberLines 1 (fileLines content))).map
    (process_chunk reg bank_id)).flatten

/-- The statistics record of `estimate_file_size` (`file_size_mb`, a float,
is omitted; no claim concerns it). -/
structure EstimateStats where
  file_size_bytes : Nat
  estimated_lines : Nat
  is_large_file : Bool
  recommended_chunk_size : Nat
deriving DecidableEq, Repr

/-- `SpanishBankExtractor.estimate_file_size` on a file with the given lines
and byte size.  The counting loop breaks once the count exceeds 10000, so it
ends at `min lines 10001`; when the count is exactly 10000 the code calls
`file.tell()` after the `with` block has closed the file, which raises and is
re-raised as a `RuntimeError`. -/
def estimate_file_size (file_lines : List String) (file_size : Nat) :
    Except String EstimateStats :=
  let line_count := min file_lines.length 10001
  if line_count = 10000 then
    Except.error "Error estimating file size: I/O operation on closed file"
  else
    Except.ok ⟨file_size, line_count, decide (10 * 1024 * 1024 < file_size),
      min 5000 (max 1000 (line_count / 100))⟩

/-- A registry loaded from two representative rows of the reference table
(the full table is external data; these banks are the ones the observable
behaviour in question depends on). -/
def sampleRegistry : Registry :=
  [load_bank_row "ES0049" "Banco Santander, S.A." "Madrid",
   load_bank_row "ES2100" "Caixabank, S.A." "Valencia"]

/-- A line holding a CaixaBank IBAN and a mobile number. -/
def c1_line : String := "ES91 2100 0001 2345 6789 0123 612345678"

/-- A qualifying line whose only phone-like token is a `+34` number with a
leading 9 after the prefix. -/
def c3_line : String := "ES91 2100 0001 2345 6789 0123 +34 912345678"

/-- File content with matches on lines 2 and 5 of 5. -/
def c4_content : String :=
  "x\nES91 2100 0001 2345 6789 0123 612345678\n\nfoo\nES91 2100 0001 2345 6789 0123 712345678"

/-- Text whose only match sits on line 2, after a blank line 1. -/
def c5_text : String := "\nES91 2100 0001 2345 6789 0123 612345678"

/-- A qualifying line holding the same phone string twice. -/
def c6_dup_line : String := "ES91 2100 0001 2345 6789 0123 612345678 ref 612345678"

/-- A qualifying line holding a compact and a spaced phone rendering. -/
def c6_fmt_line : String := "ES91 2100 0001 2345 6789 0123 612345678 y 612 345 67 89"

/-- A line whose IBAN and first digit run are hyphen-separated. -/
def c10_line : String := "ES91-2100-0001-2345-6789-0123 612-345-678 612345678"

/-! ### Lemmas about the deduplication loop -/

theorem mem_dedupFirstAux : ∀ (l : List String) (seen : List String) (x : String),
    x ∈ dedupFirstAux seen l ↔ x ∈ l ∧ x ∉ seen := by
  intro l
  induction l with
  | nil => intro seen x; simp [dedupFirstAux]
  | cons a as ih =>
    intro seen x
    by_cases ha : a ∈ seen
    · simp only [dedupFirstAux, if_pos ha, ih, List.mem_cons]
      constructor
      · rintro ⟨hx, hs⟩; exact ⟨Or.inr hx, hs⟩
      · rintro ⟨hx | hx, hs⟩
        · exact absurd (hx ▸ ha) hs
        · exact ⟨hx, hs⟩
    · simp only [dedupFirstAux, if_neg ha, List.mem_cons, ih]
      constructor
      · rintro (rfl | ⟨hx, hs⟩)
        · exact ⟨Or.inl rfl, ha⟩
        · exact ⟨Or.inr hx, fun hc => hs (Or.inr hc)⟩
      · rintro ⟨rfl | hx, hs⟩
        · exact Or.inl rfl
        · by_cases hxa : x = a
          · exact Or.inl hxa
          · exact Or.inr ⟨hx, fun hc => hc.elim hxa hs⟩

theorem dedupFirstAux_nodup : ∀ (l : List String) (seen : List String),
    (dedupFirstAux seen l).Nodup := by
  intro l
  induction l with
  | nil => intro seen; simp [dedupFirstAux]
  | cons a as ih =>
    intro seen
    by_cases ha : a ∈ seen
    · simpa [dedupFirstAux, if_pos ha] using ih seen
    · simp only [dedupFirstAux, if_neg ha, List.nodup_cons]
      refine ⟨fun hc => ?_, ih _⟩
      exact ((mem_dedupFirstAux _ _ _).1 hc).2 (List.mem_cons_self _ _)

theorem dedupFirstAux_sublist : ∀ (l : List String) (seen : List String),
    List.Sublist (dedupFirstAux seen l) l := by
  intro l
  induction l with
  | nil => intro seen; simp [dedupFirstAux]
  | cons a as ih =>
    intro seen
    by_cases ha : a ∈ seen
    · simpa [dedupFirstAux, if_pos ha] using (ih seen).trans (List.sublist_cons_self a as)
    · simpa [dedupFirstAux, if_neg ha] using List.Sublist.cons₂ a (ih (a :: seen))

theorem mem_dedupFirst {l : List String} {x : String} : x ∈ dedupFirst l ↔ x ∈ l := by
  simp [dedupFirst, mem_dedupFirstAux]

theorem dedupFirst_nodup (l : List String) : (dedupFirst l).Nodup :=
  dedupFirstAux_nodup l []

theorem dedupFirst_sublist (l : List String) : List.Sublist (dedupFirst l) l :=
  dedupFirstAux_sublist l []

/-! ### Lemmas about the findall scanner -/

theorem mem_findAllFuel_infix {m : Option Char → List Char → Option (List Char)} :
    ∀ (fuel : Nat) (prev : Option Char) (l ms : List Char),
    ms ∈ findAllFuel m fuel prev l → ms <:+: l := by
  intro fuel
  induction fuel with
  | zero => intro prev l ms h; simp [findAllFuel] at h
  | succ fuel ih =>
    intro prev l ms h
    match l with
    | [] => simp [findAllFuel] at h
    | c :: cs =>
      cases hm : m prev (c :: cs) with
      | none =>
        simp only [findAllFuel, hm] at h
        exact (ih _ _ _ h).trans (List.suffix_cons c cs).isInfix
      | some rest =>
        simp only [findAllFuel, hm] at h
        by_cases hlen : rest.length ≤ cs.length
        · rw [if_pos hlen] at h
          rcases List.mem_cons.mp h with rfl | h
          · exact (List.take_prefix _ _).isInfix
          · exact (ih _ _ _ h).trans (List.drop_suffix _ _).isInfix
        · rw [if_neg hlen] at h
          exact (ih _ _ _ h).trans (List.suffix_cons c cs).isInfix

theorem mem_findAllFuel_head {m : Option Char → List Char → Option (List Char)}
    {P : Char → Prop}
    (hm : ∀ (pv : Option Char) (x : Char) (t r : List Char), m pv (x :: t) = some r → P x) :
    ∀ (fuel : Nat) (prev : Option Char) (l ms : List Char),
    ms ∈ findAllFuel m fuel prev l → ∃ x xs, ms = x :: xs ∧ P x := by
  intro fuel
  induction fuel with
  | zero => intro prev l ms h; simp [findAllFuel] at h
  | succ fuel ih =>
    intro prev l ms h
    match l with
    | [] => simp [findAllFuel] at h
    | c :: cs =>
      cases hmc : m prev (c :: cs) with
      | none =>
        simp only [findAllFuel, hmc] at h
        exact ih _ _ _ h
      | some rest =>
        simp only [findAllFuel, hmc] at h
        by_cases hlen : rest.length ≤ cs.length
        · rw [if_pos hlen] at h
          rcases List.mem_cons.mp h with rfl | h
          · have hk : cs.length + 1 - rest.length = (cs.length - rest.length) + 1 := by omega
            rw [hk, List.take_succ_cons]
            exact ⟨c, _, rfl, hm _ _ _ _ hmc⟩
          · exact ih _ _ _ h
        · rw [if_neg hlen] at h
          exact ih _ _ _ h

theorem mem_findAll_infix {m : Option Char → List Char → Option (List Char)}
    {prev : Option Char} {l ms : List Char} (h : ms ∈ findAll m prev l) : ms <:+: l :=
  mem_findAllFuel_infix _ _ _ _ h

/-! ### Lemmas about chunked processing -/

theorem chunkListFuel_flatten {α : Type} :
    ∀ (fuel n : Nat) (l : List α), l.length ≤ fuel → (chunkListFuel fuel n l).flatten = l := by
  intro fuel
  induction fuel with
  | zero =>
    intro n l h
    have : l = [] := List.length_eq_zero.mp (Nat.le_zero.mp h)
    simp [this, chunkListFuel]
  | succ fuel ih =>
    intro n l h
    match l with
    | [] => simp [chunkListFuel]
    | x :: xs =>
      have hx : (xs.drop (n - 1)).length ≤ fuel := by
        simp only [List.length_drop]
        simp only [List.length_cons] at h
        omega
      simp only [chunkListFuel, List.flatten_cons, ih n _ hx, List.cons_append,
        List.take_append_drop]

theorem process_chunk_append (reg : Registry) (bank_id : String)
    (a b : List (Nat × String)) :
    process_chunk reg bank_id (a ++ b) =
      process_chunk reg bank_id a ++ process_chunk reg bank_id b := by
  simp [process_chunk, List.filterMap_append]

theorem flatten_map_process_chunk (reg : Registry) (bank_id : String) :
    ∀ chunks : List (List (Nat × String)),
    ((chunks.map (process_chunk reg bank_id)).flatten) = process_chunk reg bank_id chunks.flatten := by
  intro chunks
  induction chunks with
  | nil => simp [process_chunk]
  | cons c cs ih => simp [List.flatten_cons, ih, process_chunk_append]

theorem process_chunk_cons_blank (reg : Registry) (bank_id : String) (n : Nat)
    (s : String) (rest : List (Nat × String)) (h : s = "") :
    process_chunk reg bank_id ((n, s) :: rest) = process_chunk reg bank_id rest := by
  simp [process_chunk, List.filterMap_cons, h]

theorem process_chunk_cons_nomatch (reg : Registry) (bank_id : String) (n : Nat)
    (s : String) (rest : List (Nat × String)) (h1 : s ≠ "")
    (h2 : extract_phone_numbers reg bank_id s = []) :
    process_chunk reg bank_id ((n, s) :: rest) = process_chunk reg bank_id rest := by
  simp [process_chunk, List.filterMap_cons, h1, h2]

theorem process_chunk_cons_match (reg : Registry) (bank_id : String) (n : Nat)
    (s : String) (rest : List (Nat × String)) (h1 : s ≠ "")
    (h2 : extract_phone_numbers reg bank_id s ≠ []) :
    process_chunk reg bank_id ((n, s) :: rest) =
      ⟨n, s, extract_phone_numbers reg bank_id s,
        (extract_phone_numbers reg bank_id s).length⟩ :: process_chunk reg bank_id rest := by
  simp [process_chunk, List.filterMap_cons, h1, h2]

theorem process_chunk_numberLines (reg : Registry) (bank_id : String) :
    ∀ (ls : List String) (k : Nat),
    process_chunk reg bank_id (numberLines k ls) = processLinesFrom reg bank_id k ls := by
  intro ls
  induction ls with
  | nil => intro k; simp [numberLines, process_chunk, processLinesFrom]
  | cons l rest ih =>
    intro k
    simp only [numberLines, processLinesFrom]
    by_cases h1 : pyStrip l = ""
    · rw [process_chunk_cons_blank _ _ _ _ _ h1, if_pos h1, ih]
    · rw [if_neg h1]
      by_cases h2 : extract_phone_numbers reg bank_id (pyStrip l) = []
      · rw [process_chunk_cons_nomatch _ _ _ _ _ h1 h2, if_pos h2, ih]
      · rw [process_chunk_cons_match _ _ _ _ _ h1 h2, if_neg h2, ih]

theorem pyStrip_empty : pyStrip "" = "" := rfl

theorem processLinesFrom_append_blank (reg : Registry) (bank_id : String) :
    ∀ (ls : List String) (k : Nat),
    processLinesFrom reg bank_id k (ls ++ [""]) = processLinesFrom reg bank_id k ls := by
  intro ls
  induction ls with
  | nil =>
    intro k
    simp [processLinesFrom, pyStrip_empty]
  | cons l rest ih =>
    intro k
    simp only [List.cons_append, processLinesFrom, List.append_eq, ih (k + 1)]

theorem splitLines_ne_nil : ∀ l : List Char, splitLines l ≠ [] := by
  intro l
  match l with
  | [] => simp [splitLines]
  | c :: cs =>
    simp only [splitLines]
    by_cases h : c = '\n'
    · simp [h]
    · rw [if_neg h]
      cases splitLines cs with
      | nil => simp
      | cons p ps => simp

theorem splitLines_iterLines :
    ∀ l : List Char, splitLines l = iterLines l ∨ splitLines l = iterLines l ++ [[]] := by
  intro l
  induction l with
  | nil => right; simp [splitLines, iterLines]
  | cons c cs ih =>
    by_cases h : c = '\n'
    · rcases ih with ihe | ihe
      · left; simp [splitLines, iterLines, h, ihe]
      · right; simp [splitLines, iterLines, h, ihe]
    · rcases ih with ihe | ihe
      · left
        simp only [splitLines, iterLines, if_neg h, ihe]
      · cases hi : iterLines cs with
        | nil =>
          left
          rw [hi] at ihe
          simp only [List.nil_append] at ihe
          simp [splitLines, iterLines, if_neg h, ihe, hi]
        | cons p ps =>
          right
          rw [hi] at ihe
          simp [splitLines, iterLines, if_neg h, ihe, hi, List.cons_append]

theorem process_text_eq_fileLines (reg : Registry) (bank_id content : String) :
    process_text reg bank_id content = processLinesFrom reg bank_id 1 (fileLines content) := by
  unfold process_text splitLinesStr fileLines
  rcases splitLines_iterLines content.data with h | h
  · rw [h]
  · rw [h, List.map_append]
    have : (([[]] : List (List Char)).map fun l => (⟨l⟩ : String)) = [""] := rfl
    rw [this, processLinesFrom_append_blank]

/-! ### Structure of extract results -/

theorem extract_eq_empty_or_dedup (reg : Registry) (bank_id text : String) :
    extract_phone_numbers reg bank_id text = [] ∨
    extract_phone_numbers reg bank_id text = dedupFirst (rawPhoneMatches text) := by
  unfold extract_phone_numbers
  cases get_entity_code reg (normalize_iban_code bank_id) with
  | none => left; rfl
  | some ec =>
    by_cases h1 : ec = ""
    · left; simp [h1]
    · by_cases h2 : (ibanCandidates text).any (ibanMatchesEntity ec)
      · right; simp [h1, h2]
      · left; simp [h1, h2]

theorem mem_extract_raw {reg : Registry} {bank_id text s : String}
    (hs : s ∈ extract_phone_numbers reg bank_id text) : s ∈ rawPhoneMatches text := by
  rcases extract_eq_empty_or_dedup reg bank_id text with h | h
  · rw [h] at hs; simp at hs
  · rw [h] at hs; exact mem_dedupFirst.mp hs

theorem extract_nodup (reg : Registry) (bank_id text : String) :
    (extract_phone_numbers reg bank_id text).Nodup := by
  rcases extract_eq_empty_or_dedup reg bank_id text with h | h <;> rw [h]
  · exact List.nodup_nil
  · exact dedupFirst_nodup _

theorem extract_sublist_raw (reg : Registry) (bank_id text : String) :
    List.Sublist (extract_phone_numbers reg bank_id text) (rawPhoneMatches text) := by
  rcases extract_eq_empty_or_dedup reg bank_id text with h | h <;> rw [h]
  · exact List.nil_sublist _
  · exact dedupFirst_sublist _

theorem mem_rawPhoneMatches {text s : String} (hs : s ∈ rawPhoneMatches text) :
    ∃ m, m ∈ phonePatterns ∧ ∃ l, l ∈ findAll m none text.data ∧ s = ⟨l⟩ := by
  simp only [rawPhoneMatches, List.mem_flatten, List.mem_map] at hs
  obtain ⟨sub, ⟨m, hm, rfl⟩, hs⟩ := hs
  obtain ⟨l, hl, rfl⟩ := List.mem_map.mp hs
  exact ⟨m, hm, l, hl, rfl⟩

/-! ### First characters of pattern matches -/

theorem matchPlain34_head {pv : Option Char} {x : Char} {t r : List Char}
    (h : matchPlain34 pv (x :: t) = some r) : x = '+' := by
  by_cases hx : x = '+'
  · exact hx
  · simp [matchPlain34, eatChars, hx] at h

theorem matchGrouped34_head {pv : Option Char} {x : Char} {t r : List Char}
    (h : matchGrouped34 pv (x :: t) = some r) : x = '+' := by
  by_cases hx : x = '+'
  · exact hx
  · simp [matchGrouped34, eatChars, hx] at h

theorem matchMobile_head {pv : Option Char} {x : Char} {t r : List Char}
    (h : matchMobile pv (x :: t) = some r) : x = '6' ∨ x = '7' ∨ x = '8' := by
  by_cases hx : x = '6' ∨ x = '7' ∨ x = '8'
  · exact hx
  · push_neg at hx
    simp [matchMobile, eatChars, hx.1, hx.2.1, hx.2.2] at h

theorem matchMobileGrouped_head {pv : Option Char} {x : Char} {t r : List Char}
    (h : matchMobileGrouped pv (x :: t) = some r) : x = '6' ∨ x = '7' ∨ x = '8' := by
  by_cases hx : x = '6' ∨ x = '7' ∨ x = '8'
  · exact hx
  · push_neg at hx
    simp [matchMobileGrouped, eatChars, hx.1, hx.2.1, hx.2.2] at h

theorem matchLandline_head {pv : Option Char} {x : Char} {t r : List Char}
    (h : matchLandline pv (x :: t) = some r) : x = '8' := by
  by_cases hx : x = '8'
  · exact hx
  · simp [matchLandline, eatChars, hx] at h

theorem matchLandlineGrouped_head {pv : Option Char} {x : Char} {t r : List Char}
    (h : matchLandlineGrouped pv (x :: t) = some r) : x = '8' := by
  by_cases hx : x = '8'
  · exact hx
  · simp [matchLandlineGrouped, eatChars, hx] at h

/-! ### Per-line soundness of processLinesFrom -/

theorem mem_processLinesFrom {reg : Registry} {bank_id : String} :
    ∀ {ls : List String} {k : Nat} {r : MatchLine},
    r ∈ processLinesFrom reg bank_id k ls →
    ∃ i line, ls[i]? = some line ∧ r.line_number = k + i ∧ pyStrip line ≠ "" ∧
      r.text = pyStrip line ∧
      r.phone_numbers = extract_phone_numbers reg bank_id (pyStrip line) ∧
      r.phone_numbers ≠ [] ∧ r.phone_count = r.phone_numbers.length := by
  intro ls
  induction ls with
  | nil => intro k r h; simp [processLinesFrom] at h
  | cons line rest ih =>
    intro k r h
    simp only [processLinesFrom] at h
    by_cases h1 : pyStrip line = ""
    · rw [if_pos h1] at h
      obtain ⟨i, l2, hget, hnum, hb, ht, hp, hne, hc⟩ := ih h
      refine ⟨i + 1, l2, ?_, by omega, hb, ht, hp, hne, hc⟩
      simpa using hget
    · rw [if_neg h1] at h
      by_cases h2 : extract_phone_numbers reg bank_id (pyStrip line) = []
      · rw [if_pos h2] at h
        obtain ⟨i, l2, hget, hnum, hb, ht, hp, hne, hc⟩ := ih h
        refine ⟨i + 1, l2, ?_, by omega, hb, ht, hp, hne, hc⟩
        simpa using hget
      · rw [if_neg h2] at h
        rcases List.mem_cons.mp h with rfl | h
        · exact ⟨0, line, by simp, by simp, h1, rfl, rfl, h2, rfl⟩
        · obtain ⟨i, l2, hget, hnum, hb, ht, hp, hne, hc⟩ := ih h
          refine ⟨i + 1, l2, ?_, by omega, hb, ht, hp, hne, hc⟩
          simpa using hget

/-! ### Substring test and qualification helpers -/

theorem isInfixOfL_infix : ∀ (hay needle : List Char),
    isInfixOfL needle hay = true → List.IsInfix needle hay := by
  intro hay
  induction hay with
  | nil =>
    intro needle h
    simp only [isInfixOfL, List.isEmpty_iff] at h
    simp [h]
  | cons c cs ih =>
    intro needle h
    simp only [isInfixOfL, Bool.or_eq_true] at h
    rcases h with h | h
    · exact (List.isPrefixOf_iff_prefix.mp h).isInfix
    · exact List.infix_cons (ih needle h)

theorem ibanMatchesEntity_ne_empty {ec : String} {ib : List Char}
    (h : ibanMatchesEntity ec ib = true) : ec ≠ "" := by
  intro he
  subst he
  simp only [ibanMatchesEntity, Bool.and_eq_true, decide_eq_true_eq] at h
  obtain ⟨⟨hlen, _⟩, htake⟩ := h
  have hl : (((ib.filter fun c => c != ' ').drop 4).take 4).length = 0 := by
    rw [htake]; rfl
  rw [List.length_take, List.length_drop] at hl
  omega

/-! ### Claim theorems -/

/-- C2: for every bank identifier whose normalized form is not a key of the
loaded registry and for every text, `extract_phone_numbers` returns the empty
sequence (and, being a total function, raises no error). -/
theorem extract_unresolvable_empty (reg : Registry) (bank_id text : String)
    (h : ∀ kb ∈ reg, kb.1 ≠ normalize_iban_code bank_id) :
    extract_phone_numbers reg bank_id text = [] := by
  have hfind : (reg.find? fun kb => kb.1 == normalize_iban_code bank_id) = none := by
    rw [List.find?_eq_none]
    intro kb hkb
    simpa using h kb hkb
  unfold extract_phone_numbers get_entity_code get_bank_info
  rw [hfind]
  rfl

/-- Witness for C2 at a registry without the key `ES9999`. -/
theorem extract_unresolvable_empty_witness :
    (∀ kb ∈ sampleRegistry, kb.1 ≠ normalize_iban_code "ES9999") ∧
    extract_phone_numbers sampleRegistry "ES9999"
      "ES91 9999 0001 2345 6789 0123 612345678" = [] :=
  ⟨by decide, extract_unresolvable_empty sampleRegistry "ES9999"
    "ES91 9999 0001 2345 6789 0123 612345678" (by decide)⟩

/-- C4: for every bank identifier and every file content, `process_large_file`
with any chunk size of at least one produces exactly the ordered `MatchLine`
sequence of `process_text` on the full content. -/
theorem process_large_file_eq_process_text (reg : Registry) (bank_id content : String)
    (chunk_size : Nat) (_hn : 1 ≤ chunk_size) :
    process_large_file reg bank_id content chunk_size = process_text reg bank_id content := by
  unfold process_large_file chunkList
  rw [flatten_map_process_chunk, chunkListFuel_flatten _ _ _ le_rfl,
    process_chunk_numberLines, process_text_eq_fileLines]

/-- Witness for C4: chunk size 2 over a 5-line file. -/
theorem process_large_file_eq_process_text_witness :
    1 ≤ 2 ∧ process_large_file sampleRegistry "ES2100" c4_content 2 =
      process_text sampleRegistry "ES2100" c4_content :=
  ⟨by decide, process_large_file_eq_process_text sampleRegistry "ES2100" c4_content 2 (by decide)⟩

/-- C5: every record emitted by `process_text` stems from a line of the
pre-trim newline split whose trimmed form is non-blank, carries that trimmed
form and its non-empty extraction result, and its `line_number` is the
1-based position of the line in the split. -/
theorem process_text_line_sound (reg : Registry) (bank_id text : String) (r : MatchLine)
    (hr : r ∈ process_text reg bank_id text) :
    ∃ i line, (splitLinesStr text)[i]? = some line ∧ r.line_number = i + 1 ∧
      pyStrip line ≠ "" ∧ r.text = pyStrip line ∧
      r.phone_numbers = extract_phone_numbers reg bank_id (pyStrip line) ∧
      r.phone_numbers ≠ [] ∧ r.phone_count = r.phone_numbers.length := by
  obtain ⟨i, line, hget, hnum, hb, ht, hp, hne, hc⟩ := mem_processLinesFrom hr
  exact ⟨i, line, hget, by omega, hb, ht, hp, hne, hc⟩

/-- Witness for C5 at a text whose only match sits on line 2. -/
theorem process_text_line_sound_witness :
    ((⟨2, "ES91 2100 0001 2345 6789 0123 612345678", ["612345678"], 1⟩ : MatchLine) ∈
      process_text sampleRegistry "ES2100" c5_text) ∧
    (∃ i line, (splitLinesStr c5_text)[i]? = some line ∧
      (⟨2, "ES91 2100 0001 2345 6789 0123 612345678", ["612345678"], 1⟩ : MatchLine).line_number = i + 1 ∧
      pyStrip line ≠ "" ∧
      (⟨2, "ES91 2100 0001 2345 6789 0123 612345678", ["612345678"], 1⟩ : MatchLine).text = pyStrip line ∧
      (⟨2, "ES91 2100 0001 2345 6789 0123 612345678", ["612345678"], 1⟩ : MatchLine).phone_numbers =
        extract_phone_numbers sampleRegistry "ES2100" (pyStrip line) ∧
      (⟨2, "ES91 2100 0001 2345 6789 0123 612345678", ["612345678"], 1⟩ : MatchLine).phone_numbers ≠ [] ∧
      (⟨2, "ES91 2100 0001 2345 6789 0123 612345678", ["612345678"], 1⟩ : MatchLine).phone_count =
        (⟨2, "ES91 2100 0001 2345 6789 0123 612345678", ["612345678"], 1⟩ : MatchLine).phone_numbers.length) :=
  ⟨by decide, process_text_line_sound sampleRegistry "ES2100" c5_text _ (by decide)⟩

/-- C7: `normalize_iban_code` is the identity on canonical inputs, that is on
six-character space-free strings whose characters 2-5 are digits, and it
recovers the registry key from a full sample IBAN. -/
theorem normalize_iban_code_spec :
    (∀ s : String, (∀ c ∈ s.data, c ≠ ' ') → s.data.length = 6 →
      (∀ c ∈ (s.data.drop 2).take 4, c.isDigit) → normalize_iban_code s = s) ∧
    normalize_iban_code "ES91 0049 0001 2345 6789 0123" = "ES0049" ∧
    normalize_iban_code "ES0049" = "ES0049" := by
  refine ⟨?_, by decide, by decide⟩
  intro s hsp hlen hdig
  have hfil : (s.data.filter fun c => c != ' ') = s.data := by
    rw [List.filter_eq_self]
    intro a ha
    simpa using hsp a ha
  simp only [normalize_iban_code, hfil]
  by_cases hes : s.data.take 2 = ['E', 'S']
  · rw [if_pos ⟨hes, by omega⟩]
    rw [if_pos ⟨hlen, by rw [List.all_eq_true]; intro c hc; simpa using hdig c hc⟩]
  · rw [if_neg fun hc => hes hc.1]

/-- Witness for C7 at the canonical key `ES0049`. -/
theorem normalize_iban_code_spec_witness :
    (∀ c ∈ ("ES0049" : String).data, c ≠ ' ') ∧ ("ES0049" : String).data.length = 6 ∧
    (∀ c ∈ (("ES0049" : String).data.drop 2).take 4, c.isDigit) ∧
    normalize_iban_code "ES0049" = "ES0049" :=
  ⟨by decide, by decide, by decide,
    normalize_iban_code_spec.1 "ES0049" (by decide) (by decide) (by decide)⟩

/-- C8: the claim says files of at most 10000 lines report their exact line
count and longer files are extrapolated from bytes read against total size;
the code instead returns a constant 10001 for every file with more than
10000 lines (the sampling loop breaks with the counter already at 10001, so
the `== 10000` extrapolation branch cannot fire for them), and raises for a
file of exactly 10000 lines (`file.tell()` runs after the file was closed).
This theorem evaluates the embedding at both failing inputs. -/
theorem estimate_file_size_bug :
    (∀ size : Nat, ∃ st, estimate_file_size (List.replicate 20000 "x") size = Except.ok st ∧
      st.estimated_lines = 10001) ∧
    estimate_file_size (List.replicate 10000 "x") 123 =
      Except.error "Error estimating file size: I/O operation on closed file" := by
  constructor
  · intro size
    refine ⟨⟨size, 10001, decide (10 * 1024 * 1024 < size), 1000⟩, ?_, rfl⟩
    simp only [estimate_file_size, List.length_replicate]
    norm_num
  · simp only [estimate_file_size, List.length_replicate]
    norm_num

/-- C1: under a resolvable bank identifier, a non-empty extraction implies a
candidate IBAN of the hyphen-stripped text whose entity characters match the
resolved code (and every candidate is a substring of the hyphen-stripped
text); when a matching candidate exists the phone patterns are applied to
the text.  Concretely, the CaixaBank line yields `612345678` for `ES2100`
and nothing for `ES0049`. -/
theorem extract_requires_matching_iban :
    (∀ (reg : Registry) (bank_id text ec : String),
      get_entity_code reg (normalize_iban_code bank_id) = some ec →
      (extract_phone_numbers reg bank_id text ≠ [] →
        ∃ ib ∈ ibanCandidates text, ibanMatchesEntity ec ib = true ∧
          List.IsInfix ib (text.data.filter fun c => c != '-')) ∧
      ((∃ ib ∈ ibanCandidates text, ibanMatchesEntity ec ib = true) →
        extract_phone_numbers reg bank_id text = dedupFirst (rawPhoneMatches text))) ∧
    "612345678" ∈ extract_phone_numbers sampleRegistry "ES2100" c1_line ∧
    extract_phone_numbers sampleRegistry "ES0049" c1_line = [] := by
  refine ⟨?_, by decide, by decide⟩
  intro reg bank_id text ec hec
  constructor
  · intro hne
    simp only [extract_phone_numbers, hec] at hne
    by_cases h1 : ec = ""
    · simp [h1] at hne
    · rw [if_neg h1] at hne
      by_cases h2 : (ibanCandidates text).any (ibanMatchesEntity ec)
      · obtain ⟨ib, hmem, hq⟩ := List.any_eq_true.mp h2
        exact ⟨ib, hmem, hq, mem_findAll_infix hmem⟩
      · simp [h2] at hne
  · rintro ⟨ib, hmem, hq⟩
    have h1 : ec ≠ "" := ibanMatchesEntity_ne_empty hq
    have h2 : (ibanCandidates text).any (ibanMatchesEntity ec) = true :=
      List.any_eq_true.mpr ⟨ib, hmem, hq⟩
    simp only [extract_phone_numbers, hec]
    rw [if_neg h1, if_pos h2]

/-- Witness for C1 at the CaixaBank registry entry and line. -/
theorem extract_requires_matching_iban_witness :
    get_entity_code sampleRegistry (normalize_iban_code "ES2100") = some "2100" ∧
    ((extract_phone_numbers sampleRegistry "ES2100" c1_line ≠ [] →
      ∃ ib ∈ ibanCandidates c1_line, ibanMatchesEntity "2100" ib = true ∧
        List.IsInfix ib (c1_line.data.filter fun c => c != '-')) ∧
    ((∃ ib ∈ ibanCandidates c1_line, ibanMatchesEntity "2100" ib = true) →
      extract_phone_numbers sampleRegistry "ES2100" c1_line =
        dedupFirst (rawPhoneMatches c1_line))) :=
  ⟨by decide, extract_requires_matching_iban.1 sampleRegistry "ES2100" c1_line "2100" (by decide)⟩

/-- C3 counterexample: on a qualifying line, the code returns the string
`+34 912345678`, whose digits after the `+34 ` prefix begin with 9 — the
compiled `+34` patterns place no restriction on the digit following the
prefix, so the claimed 9-exclusion does not extend to the international
forms. -/
theorem extract_plus34_nine_counterexample :
    extract_phone_numbers sampleRegistry "ES2100" c3_line = ["+34 912345678"] ∧
    (("+34 912345678" : String).data.drop 4).head? = some '9' := by
  exact ⟨by decide, by decide⟩

/-- C3 amended: no returned string has 9 as its first character — every
result starts with `+` (international patterns) or with 6, 7 or 8 (bare
patterns) — but the digits following a `+34` prefix may begin with 9. -/
theorem extract_head_char_amended (reg : Registry) (bank_id text s : String)
    (hs : s ∈ extract_phone_numbers reg bank_id text) :
    s.data.head? = some '+' ∨ s.data.head? = some '6' ∨ s.data.head? = some '7' ∨
      s.data.head? = some '8' := by
  obtain ⟨m, hm, l, hl, rfl⟩ := mem_rawPhoneMatches (mem_extract_raw hs)
  simp only [phonePatterns, List.mem_cons, List.not_mem_nil, or_false] at hm
  rcases hm with rfl | rfl | rfl | rfl | rfl | rfl
  · obtain ⟨x, xs, rfl, hx⟩ :=
      mem_findAllFuel_head (fun pv x t r h => matchPlain34_head h) _ _ _ _ hl
    subst hx; left; rfl
  · obtain ⟨x, xs, rfl, hx⟩ :=
      mem_findAllFuel_head (fun pv x t r h => matchGrouped34_head h) _ _ _ _ hl
    subst hx; left; rfl
  · obtain ⟨x, xs, rfl, hx⟩ :=
      mem_findAllFuel_head (fun pv x t r h => matchMobile_head h) _ _ _ _ hl
    rcases hx with rfl | rfl | rfl
    · right; left; rfl
    · right; right; left; rfl
    · right; right; right; rfl
  · obtain ⟨x, xs, rfl, hx⟩ :=
      mem_findAllFuel_head (fun pv x t r h => matchMobileGrouped_head h) _ _ _ _ hl
    rcases hx with rfl | rfl | rfl
    · right; left; rfl
    · right; right; left; rfl
    · right; right; right; rfl
  · obtain ⟨x, xs, rfl, hx⟩ :=
      mem_findAllFuel_head (fun pv x t r h => matchLandline_head h) _ _ _ _ hl
    subst hx; right; right; right; rfl
  · obtain ⟨x, xs, rfl, hx⟩ :=
      mem_findAllFuel_head (fun pv x t r h => matchLandlineGrouped_head h) _ _ _ _ hl
    subst hx; right; right; right; rfl

/-- Witness for the amended C3 at a concrete extraction result. -/
theorem extract_head_char_amended_witness :
    ("612345678" ∈ extract_phone_numbers sampleRegistry "ES2100" c1_line) ∧
    (("612345678" : String).data.head? = some '+' ∨
      ("612345678" : String).data.head? = some '6' ∨
      ("612345678" : String).data.head? = some '7' ∨
      ("612345678" : String).data.head? = some '8') :=
  ⟨by decide, extract_head_char_amended sampleRegistry "ES2100" c1_line "612345678" (by decide)⟩

/-- C6: extraction results are duplicate-free, preserve the order of the raw
concatenated pattern matches (a sublist of them), and only contain raw
matches; a line holding the same string twice yields one entry at its first
position, while distinct renderings stay distinct entries. -/
theorem extract_dedup_first :
    (∀ (reg : Registry) (bank_id text : String),
      (extract_phone_numbers reg bank_id text).Nodup) ∧
    (∀ (reg : Registry) (bank_id text : String),
      List.Sublist (extract_phone_numbers reg bank_id text) (rawPhoneMatches text)) ∧
    (∀ (reg : Registry) (bank_id text s : String),
      s ∈ extract_phone_numbers reg bank_id text → s ∈ rawPhoneMatches text) ∧
    rawPhoneMatches c6_dup_line = ["612345678", "612345678"] ∧
    extract_phone_numbers sampleRegistry "ES2100" c6_dup_line = ["612345678"] ∧
    extract_phone_numbers sampleRegistry "ES2100" c6_fmt_line =
      ["612345678", "612 345 67 89"] :=
  ⟨fun reg bank_id text => extract_nodup reg bank_id text,
   fun reg bank_id text => extract_sublist_raw reg bank_id text,
   fun _ _ _ _ hs => mem_extract_raw hs,
   by decide, by decide, by decide⟩

/-- Witness for C6 at the duplicated line. -/
theorem extract_dedup_first_witness :
    ("612345678" ∈ extract_phone_numbers sampleRegistry "ES2100" c6_dup_line) ∧
    "612345678" ∈ rawPhoneMatches c6_dup_line :=
  ⟨by decide, extract_dedup_first.2.2.1 sampleRegistry "ES2100" c6_dup_line "612345678" (by decide)⟩

/-- C9: bank search returns nothing for blank terms or terms shorter than
two characters after lowering and trimming, never more than 100 entries,
every result is a registry entry whose lowered name contains the lowered
trimmed term, results appear in registry iteration order, and the Santander
entry is found by a lowercase search. -/
theorem search_banks_contract :
    (∀ (reg : Registry) (term : String), pyStrip term = "" → search_banks reg term = []) ∧
    (∀ (reg : Registry) (term : String), (pyStrip (strLower term)).length < 2 →
      search_banks reg term = []) ∧
    (∀ (reg : Registry) (term : String), (search_banks reg term).length ≤ 100) ∧
    (∀ (reg : Registry) (term : String) (kn : String × String), kn ∈ search_banks reg term →
      ∃ b, (kn.1, b) ∈ reg ∧ kn.2 = b.name ∧
        List.IsInfix (pyStrip (strLower term)).data (strLower b.name).data) ∧
    (∀ (reg : Registry) (term : String),
      List.Sublist (search_banks reg term) (reg.map fun kb => (kb.1, kb.2.name))) ∧
    search_banks sampleRegistry "santander" = [("ES0049", "Banco Santander, S.A.")] := by
  refine ⟨?_, ?_, ?_, ?_, ?_, by decide⟩
  · intro reg term h
    simp [search_banks, h]
  · intro reg term h
    by_cases h1 : pyStrip term = ""
    · simp [search_banks, h1]
    · simp only [search_banks, if_neg h1]
      rw [if_pos h]
  · intro reg term
    by_cases h1 : pyStrip term = ""
    · simp [search_banks, h1]
    · simp only [search_banks, if_neg h1]
      by_cases h2 : (pyStrip (strLower term)).length < 2
      · rw [if_pos h2]; simp
      · rw [if_neg h2]
        exact List.length_take_le _ _
  · intro reg term kn hkn
    by_cases h1 : pyStrip term = ""
    · simp [search_banks, h1] at hkn
    · simp only [search_banks, if_neg h1] at hkn
      by_cases h2 : (pyStrip (strLower term)).length < 2
      · rw [if_pos h2] at hkn; simp at hkn
      · rw [if_neg h2] at hkn
        obtain ⟨kb, hkb, rfl⟩ := List.mem_map.mp (List.mem_of_mem_take hkn)
        obtain ⟨hmem, hcond⟩ := List.mem_filter.mp hkb
        exact ⟨kb.2, hmem, rfl, isInfixOfL_infix _ _ hcond⟩
  · intro reg term
    by_cases h1 : pyStrip term = ""
    · simp [search_banks, h1]
    · simp only [search_banks, if_neg h1]
      by_cases h2 : (pyStrip (strLower term)).length < 2
      · rw [if_pos h2]; exact List.nil_sublist _
      · rw [if_neg h2]
        exact (List.take_sublist _ _).trans ((List.filter_sublist _).map _)

/-- Witness for C9 instantiating the guarded clauses at concrete inputs. -/
theorem search_banks_contract_witness :
    (pyStrip "  " = "" ∧ search_banks sampleRegistry "  " = []) ∧
    ((pyStrip (strLower "a")).length < 2 ∧ search_banks sampleRegistry "a" = []) ∧
    (search_banks sampleRegistry "banco").length ≤ 100 :=
  ⟨⟨by decide, search_banks_contract.1 sampleRegistry "  " (by decide)⟩,
   ⟨by decide, search_banks_contract.2.1 sampleRegistry "a" (by decide)⟩,
   search_banks_contract.2.2.1 sampleRegistry "banco"⟩

/-- C10: every extracted string is a contiguous substring of the original
text — phone patterns run over the unmodified text while IBAN qualification
runs over a hyphen-stripped copy, so a hyphen-separated digit run is never
returned while a hyphen-separated qualifying IBAN still qualifies the
line. -/
theorem extract_results_substring :
    (∀ (reg : Registry) (bank_id text s : String),
      s ∈ extract_phone_numbers reg bank_id text → List.IsInfix s.data text.data) ∧
    extract_phone_numbers sampleRegistry "ES2100" c10_line = ["612345678"] := by
  constructor
  · intro reg bank_id text s hs
    obtain ⟨m, hm, l, hl, rfl⟩ := mem_rawPhoneMatches (mem_extract_raw hs)
    exact mem_findAll_infix hl
  · decide

/-- Witness for C10 at the hyphenated line. -/
theorem extract_results_substring_witness :
    ("612345678" ∈ extract_phone_numbers sampleRegistry "ES2100" c10_line) ∧
    List.IsInfix ("612345678" : String).data c10_line.data :=
  ⟨by decide, extract_results_substring.1 sampleRegistry "ES2100" c10_line "612345678" (by decide)⟩
